import Mathlib

/-!
Shallow embedding of the `ircodec` classification core
(`ircodec/signal.py` and `ircodec/command.py`).

Signals are timed intervals tagged as pulses or gaps; lengths are modelled
as rationals (the Python code uses ints from capture and floats for means
and tolerance arithmetic, which we model exactly over `ℚ`).  The mutable
class-level uid counters of `PulseClass` / `GapClass` are threaded
explicitly as a `UidState`.  Fallible Python paths (raised exceptions)
are modelled with `Except PyErr`.
-/

namespace Ircodec

/-- The two signal kinds (`Pulse` and `Gap` subclasses of `Signal`). -/
inductive Kind where
  | pulse
  | gap
deriving DecidableEq

/-- Model of `Signal` objects: a kind tag plus a length (`signal.py`, `Signal`). -/
structure Signal where
  kind : Kind
  length : ℚ
deriving DecidableEq

/-- Python `sorted(signal_list, key=lambda x: x.length)`, on lengths. -/
def sortAsc (l : List ℚ) : List ℚ :=
  l.insertionSort (fun a b => a ≤ b)

/-- The grouping loop of `group_signals`: `cur` is the group being built,
`prev` the previous element in sorted order (the `a` of the Python
`zip(sorted_signals[:-1], sorted_signals[1:])` scan). -/
def groupGo (tol : ℚ) (cur : List ℚ) (prev : ℚ) : List ℚ → List (List ℚ)
  | [] => [cur]
  | b :: rest =>
    if b < prev * (1 + tol) then groupGo tol (cur ++ [b]) b rest
    else cur :: groupGo tol [b] b rest

/-- Exceptions the modelled Python paths can raise. -/
inductive PyErr where
  | couldNotNormalize (k : Kind) (len : ℚ)
  | nameError
  | indexError
  | valueError (msg : String)
  | keyError (k : String)
  | typeError
deriving DecidableEq

/-- Model of `group_signals(signal_list, tolerance)` (`signal.py` lines 191-219):
sort ascending, seed the first group with the smallest element, then scan
consecutive sorted pairs, chaining the tolerance test on the immediately
preceding element.  On empty input the Python code raises IndexError at
`sorted_signals[0]`. -/
def group_signals (l : List ℚ) (tol : ℚ) : Except PyErr (List (List ℚ)) :=
  match sortAsc l with
  | [] => Except.error PyErr.indexError
  | x :: rest => Except.ok (groupGo tol [x] x rest)

/-- Default tolerance value used throughout the Python code. -/
def defaultTol : ℚ := 1 / 10

/-- Python `min(list)` on a non-empty list (0 on empty, unused). -/
def listMin : List ℚ → ℚ
  | [] => 0
  | x :: xs => xs.foldl min x

/-- Python `max(list)` on a non-empty list (0 on empty, unused). -/
def listMax : List ℚ → ℚ
  | [] => 0
  | x :: xs => xs.foldl max x

/-- Python `sum(list) / len(list)`. -/
def listMean (l : List ℚ) : ℚ := l.sum / (l.length : ℚ)

/-- Python `max(set(signals), key=signals.count)`: an element of maximal
multiplicity; ties keep the earlier element of the deduplicated list
(CPython set order is an implementation detail; the claims never depend
on the tie-break). -/
def listMode (l : List ℚ) : ℚ :=
  match l.dedup with
  | [] => 0
  | d :: ds => ds.foldl (fun best x => if l.count best < l.count x then x else best) d

/-- The observable state of a `SignalClass` (`signal.py`, `SignalClass`
with the `id` added by the `PulseClass` / `GapClass` subclasses; the
subclass distinction itself is the `kind` tag). -/
structure SignalClass where
  kind : Kind
  uid : ℕ
  id : ℕ
  signals : List ℚ
  mean : ℚ
  mode : ℚ
  min : ℚ
  max : ℚ
  range : ℚ
deriving DecidableEq

/-- Constructing a `PulseClass` / `GapClass` from a group of lengths.
`c` is the current value of the class-level `uid` counter of that kind:
`SignalClass.__init__` stores it as `uid` and bumps it, then the subclass
stores the bumped value as `id` and bumps again, so one construction
advances the counter by two.  Returns the class and the new counter. -/
def mkClass (k : Kind) (c : ℕ) (sig : List ℚ) : SignalClass × ℕ :=
  (⟨k, c, c + 1, sig, listMean sig, listMode sig, listMin sig, listMax sig,
    listMax sig - listMin sig⟩, c + 2)

/-- Model of `SignalClass.__contains__`: pure interval membership on the length. -/
def SignalClass.containsLen (cl : SignalClass) (len : ℚ) : Bool :=
  decide (cl.min ≤ len) && decide (len ≤ cl.max)

/-- Python `int()` on a rational: truncation toward zero. -/
def pyInt (q : ℚ) : ℤ :=
  if 0 ≤ q then ⌊q⌋ else ⌈q⌉

/-- Model of `SignalClass.normalized(normalized_value)` (`signal.py` lines 103-114):
dispatch on the policy string, returning the canonical representative
value, or the `ValueError` message for an unrecognized policy. -/
def SignalClass.normalizedVal (cl : SignalClass) (policy : String) : Except String ℚ :=
  if policy = "mean" then Except.ok cl.mean
  else if policy = "int_mean" then Except.ok ((pyInt cl.mean : ℤ) : ℚ)
  else if policy = "mode" then Except.ok cl.mode
  else if policy = "min" then Except.ok cl.min
  else if policy = "max" then Except.ok cl.max
  else Except.error ("Unrecognized normalized_value")

/-- Even-indexed elements, Python `l[::2]`. -/
def evens {α : Type} : List α → List α
  | [] => []
  | [a] => [a]
  | a :: _ :: rest => a :: evens rest

/-- Odd-indexed elements, Python `l[1::2]`. -/
def odds {α : Type} : List α → List α
  | [] => []
  | _ :: rest => evens rest

/-- The per-kind class-level `uid` counters (`PulseClass.uid` and
`GapClass.uid`), which in Python are process-wide mutable state. -/
structure UidState where
  pulse : ℕ
  gap : ℕ
deriving DecidableEq

/-- The list comprehension `[PulseClass(pulses) for pulses in grouped]`:
build one class per group, threading the per-kind counter. -/
def mkClasses (k : Kind) : ℕ → List (List ℚ) → List SignalClass × ℕ
  | c, [] => ([], c)
  | c, g :: rest =>
    let p := mkClass k c g
    let r := mkClasses k p.2 rest
    (p.1 :: r.1, r.2)

/-- Model of `parse_command(ir_signal_list, tolerance)` (`command.py` lines 353-383).
The even-indexed (pulse) sublist is grouped first, then the odd-indexed
(gap) sublist; either call propagates the IndexError that `group_signals`
raises on an empty sublist (so signal lists with fewer than two elements
fail here).  Note the faithful detail: the body calls `group_signals`
without passing `tolerance`, so the default tolerance is always used and
the `tol` argument is dead. -/
def parse_command (sig : List Signal) (tol : ℚ) (st : UidState) :
    Except PyErr ((List SignalClass × List SignalClass) × UidState) :=
  match group_signals ((evens sig).map Signal.length) defaultTol with
  | Except.error e => Except.error e
  | Except.ok groupedPulses =>
    match group_signals ((odds sig).map Signal.length) defaultTol with
    | Except.error e => Except.error e
    | Except.ok groupedGaps =>
      let pr := mkClasses Kind.pulse st.pulse groupedPulses
      let gr := mkClasses Kind.gap st.gap groupedGaps
      Except.ok ((pr.1, gr.1), ⟨pr.2, gr.2⟩)

/-- The `for ptype in pulse_classes: if pulse in ptype: pulse_type = ptype`
scan: keeps the LAST matching class of the list, `none` when no class
contains the length. -/
def findLastContaining (cs : List SignalClass) (len : ℚ) : Option SignalClass :=
  cs.foldl (fun acc c => if c.containsLen len then some c else acc) none

/-- The main loop of `normalize_command` over
`zip(ir_signal_list[:-1:2], ir_signal_list[1::2])`: both variables are
reset at the top of each iteration, the pulse is checked first, and the
pair of classes is appended to the running assignment list.  The returned
option is the value left in the Python local `pulse_type` after the loop
(`none` when the loop never ran, i.e. the local is unbound). -/
def normLoop (pcs gcs : List SignalClass) :
    List SignalClass → Option SignalClass → List (Signal × Signal) →
    Except PyErr (List SignalClass × Option SignalClass)
  | acc, pt, [] => Except.ok (acc, pt)
  | acc, _, (p, g) :: rest =>
    match findLastContaining pcs p.length with
    | none => Except.error (PyErr.couldNotNormalize Kind.pulse p.length)
    | some pc =>
      match findLastContaining gcs g.length with
      | none => Except.error (PyErr.couldNotNormalize Kind.gap g.length)
      | some gc => normLoop pcs gcs (acc ++ [pc, gc]) (some pc) rest

/-- The `# Last pulse` block of `normalize_command`: scan the pulse
classes for the final element; if none matches, the Python local
`pulse_type` retains its value from the main loop — a stale class when
the loop ran (no exception is raised), and an unbound name (NameError at
the `pulse_type == None` test) when it did not. -/
def lastPulseResolve (pcs : List SignalClass) (pt0 : Option SignalClass)
    (lastSig : Signal) : Except PyErr SignalClass :=
  match findLastContaining pcs lastSig.length with
  | some c => Except.ok c
  | none =>
    match pt0 with
    | some old => Except.ok old
    | none => Except.error PyErr.nameError

/-- Model of `[s.normalized() for s in signal_class_list]` with the default
`'int_mean'` policy, each value wrapped in the class's unit kind. -/
def normalizeClasses : List SignalClass → Except PyErr (List Signal)
  | [] => Except.ok []
  | cl :: rest =>
    match cl.normalizedVal ("int_mean") with
    | Except.error m => Except.error (PyErr.valueError m)
    | Except.ok v =>
      match normalizeClasses rest with
      | Except.error e => Except.error e
      | Except.ok ns => Except.ok (⟨cl.kind, v⟩ :: ns)

/-- Model of `normalize_command(ir_signal_list, pulse_classes, gap_classes,
return_class=True)` (`command.py` lines 386-435).  `ir_signal_list[-1]`
on an empty list is an IndexError. -/
def normalize_command (l : List Signal) (pcs gcs : List SignalClass) :
    Except PyErr (List Signal × List SignalClass) :=
  match l.getLast? with
  | none => Except.error PyErr.indexError
  | some lastSig =>
    match normLoop pcs gcs [] none ((evens l.dropLast).zip (odds l)) with
    | Except.error e => Except.error e
    | Except.ok (acc, pt0) =>
      match lastPulseResolve pcs pt0 lastSig with
      | Except.error e => Except.error e
      | Except.ok c =>
        match normalizeClasses (acc ++ [c]) with
        | Except.error e => Except.error e
        | Except.ok ns => Except.ok (ns, acc ++ [c])

/-- A `Command` object's observable state (`command.py`, `Command`):
`signal_class_list` is `None` until a normalize succeeds. -/
structure Command where
  name : String
  description : String
  signal_list : List Signal
  signal_class_list : Option (List SignalClass)
deriving DecidableEq

/-- Model of `Command.normalize_with` (`command.py` lines 36-47): on success the
raw `signal_list` is overwritten with the normalized sequence and
`signal_class_list` is set to the parallel assignment list. -/
def Command.normalize_with (c : Command) (pcs gcs : List SignalClass) :
    Except PyErr Command :=
  match normalize_command c.signal_list pcs gcs with
  | Except.error e => Except.error e
  | Except.ok r => Except.ok ⟨c.name, c.description, r.1, some r.2⟩

/-- Model of `Command.normalize(tolerance)` (`command.py` lines 24-34): parse this
command's own signal list into fresh classes (propagating any IndexError
from grouping), then normalize with them. -/
def Command.normalize (c : Command) (tol : ℚ) (st : UidState) :
    Except PyErr (Command × UidState) :=
  match parse_command c.signal_list tol st with
  | Except.error e => Except.error e
  | Except.ok r =>
    match c.normalize_with r.1.1 r.1.2 with
    | Except.error e => Except.error e
    | Except.ok c2 => Except.ok (c2, r.2)

/-- The persisted record for one signal: `{'type': ..., 'length': ...}`. -/
structure SignalJson where
  type : String
  length : ℚ
deriving DecidableEq

/-- The persisted record for one signal class: its `__dict__` plus the
class name tag. -/
structure ClassJson where
  type : String
  uid : ℕ
  signals : List ℚ
  mean : ℚ
  mode : ℚ
  min : ℚ
  max : ℚ
  range : ℚ
  id : ℕ
deriving DecidableEq

/-- The persisted record for a `Command`: its `__dict__` plus the class
name tag; `signal_class_list` serializes as `null` when never set. -/
structure CommandJson where
  type : String
  name : String
  signal_list : List SignalJson
  description : String
  signal_class_list : Option (List ClassJson)
deriving DecidableEq

/-- Python class name of a signal's kind. -/
def kindName : Kind → String
  | Kind.pulse => "Pulse"
  | Kind.gap => "Gap"

/-- Python class name of a signal class's kind. -/
def classKindName : Kind → String
  | Kind.pulse => "PulseClass"
  | Kind.gap => "GapClass"

/-- Model of `Signal.to_json`: the object's `__dict__` plus its type name. -/
def Signal.to_json (s : Signal) : SignalJson :=
  ⟨kindName s.kind, s.length⟩

/-- Model of `SignalClass.to_json`: the object's `__dict__` plus its type name. -/
def SignalClass.to_json (cl : SignalClass) : ClassJson :=
  ⟨classKindName cl.kind, cl.uid, cl.signals, cl.mean, cl.mode, cl.min, cl.max,
   cl.range, cl.id⟩

/-- Model of `Command.to_json`: name, signal records, description, and the class
records or `null`. -/
def Command.to_json (c : Command) : CommandJson :=
  ⟨"Command", c.name, c.signal_list.map Signal.to_json, c.description,
   c.signal_class_list.map (fun cls => cls.map SignalClass.to_json)⟩

/-- Model of `globals()[sig['type']].from_json(sig)` for a signal record: dispatch
on the embedded type name (a KeyError for an unknown name). -/
def Signal.from_json (j : SignalJson) : Except PyErr Signal :=
  if j.type = "Pulse" then Except.ok ⟨Kind.pulse, j.length⟩
  else if j.type = "Gap" then Except.ok ⟨Kind.gap, j.length⟩
  else Except.error (PyErr.keyError j.type)

/-- Model of `globals()[sig_cls['type']].from_json(sig_cls)`: dispatch on the type
name and restore every stored attribute (`SignalClass.from_json` copies
all dict entries except `'type'` onto the new object; the side update of
the class-level uid counter does not affect the returned object). -/
def SignalClass.from_json (j : ClassJson) : Except PyErr SignalClass :=
  if j.type = "PulseClass" then
    Except.ok ⟨Kind.pulse, j.uid, j.id, j.signals, j.mean, j.mode, j.min, j.max, j.range⟩
  else if j.type = "GapClass" then
    Except.ok ⟨Kind.gap, j.uid, j.id, j.signals, j.mean, j.mode, j.min, j.max, j.range⟩
  else Except.error (PyErr.keyError j.type)

/-- Model of `Command.from_json` (`command.py` lines 104-115): decode the signal
records, then iterate `dct['signal_class_list']` unconditionally — when
that field is `null` the iteration raises `TypeError: 'NoneType' object
is not iterable`. -/
def Command.from_json (j : CommandJson) : Except PyErr Command :=
  match j.signal_list.mapM Signal.from_json with
  | Except.error e => Except.error e
  | Except.ok sigs =>
    match j.signal_class_list with
    | none => Except.error PyErr.typeError
    | some cjs =>
      match cjs.mapM SignalClass.from_json with
      | Except.error e => Except.error e
      | Except.ok cls => Except.ok ⟨j.name, j.description, sigs, some cls⟩

/-- Projection of a class to its non-identity fields (everything except
the counter-derived `uid` and `id`). -/
def classData (c : SignalClass) : Kind × List ℚ × ℚ × ℚ × ℚ × ℚ × ℚ :=
  (c.kind, c.signals, c.mean, c.mode, c.min, c.max, c.range)

/-- Well-formedness of a raw capture as stated by the spec: non-empty,
odd total count, alternating kinds starting (and hence ending) on a
pulse. -/
def alternatingWF (l : List Signal) : Prop :=
  l ≠ [] ∧ l.length % 2 = 1 ∧
    ∀ i, i < l.length →
      (l.getD i ⟨Kind.pulse, 0⟩).kind = (if i % 2 = 0 then Kind.pulse else Kind.gap)

theorem groupGo_join (tol : ℚ) :
    ∀ (rest cur : List ℚ) (prev : ℚ), (groupGo tol cur prev rest).join = cur ++ rest := by
  intro rest
  induction rest with
  | nil => intro cur prev; simp [groupGo]
  | cons b rest ih =>
    intro cur prev
    by_cases h : b < prev * (1 + tol)
    · simp [groupGo, h, ih (cur ++ [b]) b]
    · simp [groupGo, h, ih [b] b]

theorem groupGo_ne_nil (tol : ℚ) :
    ∀ (rest cur : List ℚ) (prev : ℚ), cur ≠ [] →
      ∀ g ∈ groupGo tol cur prev rest, g ≠ [] := by
  intro rest
  induction rest with
  | nil =>
    intro cur prev hc g hg
    simp only [groupGo, List.mem_singleton] at hg
    exact hg ▸ hc
  | cons b rest ih =>
    intro cur prev hc g hg
    by_cases h : b < prev * (1 + tol)
    · simp only [groupGo, if_pos h] at hg
      exact ih (cur ++ [b]) b (by simp) g hg
    · simp only [groupGo, if_neg h] at hg
      rcases List.mem_cons.mp hg with rfl | hg2
      · exact hc
      · exact ih [b] b (by simp) g hg2

theorem groupGo_head (tol : ℚ) :
    ∀ (rest cur : List ℚ) (prev : ℚ),
      ∃ t, (groupGo tol cur prev rest).head? = some (cur ++ t) := by
  intro rest
  induction rest with
  | nil => intro cur prev; exact ⟨[], by simp [groupGo]⟩
  | cons b rest ih =>
    intro cur prev
    by_cases h : b < prev * (1 + tol)
    · obtain ⟨t, ht⟩ := ih (cur ++ [b]) b
      exact ⟨b :: t, by simpa [groupGo, h] using ht⟩
    · exact ⟨[], by simp [groupGo, h]⟩

theorem groupGo_chain (tol : ℚ) :
    ∀ (rest cur : List ℚ) (prev : ℚ),
      List.Chain' (fun a b => b < a * (1 + tol)) cur → cur.getLast? = some prev →
      ∀ g ∈ groupGo tol cur prev rest, List.Chain' (fun a b => b < a * (1 + tol)) g := by
  intro rest
  induction rest with
  | nil =>
    intro cur prev hch _ g hg
    simp only [groupGo, List.mem_singleton] at hg
    exact hg ▸ hch
  | cons b rest ih =>
    intro cur prev hch hlast g hg
    by_cases h : b < prev * (1 + tol)
    · simp only [groupGo, if_pos h] at hg
      refine ih (cur ++ [b]) b ?_ ?_ g hg
      · refine List.chain'_append.mpr ⟨hch, List.chain'_singleton b, ?_⟩
        intro x hx y hy
        rw [hlast] at hx
        simp only [Option.mem_some_iff, List.head?_cons] at hx hy
        rw [← hx, ← hy]
        exact h
      · simp
    · simp only [groupGo, if_neg h] at hg
      rcases List.mem_cons.mp hg with rfl | hg2
      · exact hch
      · exact ih [b] b (List.chain'_singleton b) rfl g hg2

theorem groupGo_boundary (tol : ℚ) :
    ∀ (rest cur : List ℚ) (prev : ℚ), cur.getLast? = some prev →
      List.Chain' (fun g g2 => ∀ a ∈ g.getLast?, ∀ b ∈ g2.head?, a * (1 + tol) ≤ b)
        (groupGo tol cur prev rest) := by
  intro rest
  induction rest with
  | nil => intro cur prev _; simp [groupGo]
  | cons b rest ih =>
    intro cur prev hlast
    by_cases h : b < prev * (1 + tol)
    · simp only [groupGo, if_pos h]
      exact ih (cur ++ [b]) b (by simp)
    · simp only [groupGo, if_neg h]
      refine List.chain'_cons'.mpr ⟨?_, ih [b] b rfl⟩
      intro y hy a ha bb hbb
      obtain ⟨t, ht⟩ := groupGo_head tol rest [b] b
      rw [ht] at hy
      simp only [Option.mem_some_iff] at hy
      rw [hlast] at ha
      simp only [Option.mem_some_iff] at ha
      rw [← hy] at hbb
      simp only [List.cons_append, List.head?_cons, Option.mem_some_iff] at hbb
      rw [← ha, ← hbb]
      exact le_of_not_lt h

theorem sortAsc_perm (l : List ℚ) : (sortAsc l).Perm l :=
  List.perm_insertionSort (fun a b => a ≤ b) l

theorem sortAsc_ne_nil {l : List ℚ} (hl : l ≠ []) : sortAsc l ≠ [] := by
  intro h0
  have hp : l.Perm (sortAsc l) := (sortAsc_perm l).symm
  rw [h0] at hp
  exact hl hp.eq_nil

theorem group_signals_ok_of_ne_nil {l : List ℚ} (tol : ℚ) (hl : l ≠ []) :
    ∃ gs, group_signals l tol = Except.ok gs ∧ gs.join = sortAsc l := by
  obtain ⟨x, rest, heq⟩ := List.exists_cons_of_ne_nil (sortAsc_ne_nil hl)
  refine ⟨groupGo tol [x] x rest, by simp [group_signals, heq], ?_⟩
  rw [groupGo_join, heq]
  simp

theorem group_signals_ok_join {l : List ℚ} {tol : ℚ} {gs : List (List ℚ)}
    (h : group_signals l tol = Except.ok gs) : gs.join = sortAsc l := by
  unfold group_signals at h
  cases hs : sortAsc l with
  | nil => rw [hs] at h; exact Except.noConfusion h
  | cons x rest =>
    rw [hs] at h
    injection h with h2
    rw [← h2, groupGo_join]
    simp

/-- C1: for every non-empty list of same-kind signal lengths and every
tolerance δ, `group_signals` succeeds and returns groups whose
concatenation is the input sorted ascending, each group non-empty,
adjacent pairs inside a group chained within tolerance of the immediately
preceding sorted element, boundaries at or beyond tolerance of the
previous group's last element; and the concrete example groups as
stated.  (On empty input it raises IndexError, outside the claim's
scope.) -/
theorem group_signals_spec :
    (∀ (l : List ℚ) (tol : ℚ), l ≠ [] →
      ∃ gs, group_signals l tol = Except.ok gs ∧
        gs.join = sortAsc l ∧
        (∀ g ∈ gs, g ≠ []) ∧
        (∀ g ∈ gs, List.Chain' (fun a b => b < a * (1 + tol)) g) ∧
        List.Chain' (fun g g2 => ∀ a ∈ g.getLast?, ∀ b ∈ g2.head?, a * (1 + tol) ≤ b) gs) ∧
    group_signals [900, 950, 1000, 4000, 4050] (1 / 10) =
      Except.ok [[900, 950, 1000], [4000, 4050]] := by
  constructor
  · intro l tol hl
    have hs := sortAsc_ne_nil hl
    obtain ⟨x, rest, heq⟩ := List.exists_cons_of_ne_nil hs
    refine ⟨groupGo tol [x] x rest, by simp [group_signals, heq], ?_, ?_, ?_, ?_⟩
    · rw [groupGo_join, heq]
      simp
    · exact groupGo_ne_nil tol rest [x] x (by simp)
    · exact groupGo_chain tol rest [x] x (List.chain'_singleton x) rfl
    · exact groupGo_boundary tol rest [x] x rfl
  · norm_num [group_signals, sortAsc, List.insertionSort, List.orderedInsert, groupGo]

/-- Witness for C1 at the spec's concrete input. -/
theorem group_signals_spec_witness :
    (([900, 950, 1000, 4000, 4050] : List ℚ) ≠ [] ∧
      ∃ gs, group_signals [900, 950, 1000, 4000, 4050] (1 / 10) = Except.ok gs ∧
        gs.join = sortAsc [900, 950, 1000, 4000, 4050] ∧
        (∀ g ∈ gs, g ≠ []) ∧
        (∀ g ∈ gs, List.Chain' (fun a b => b < a * (1 + 1 / 10)) g) ∧
        List.Chain' (fun g g2 => ∀ a ∈ g.getLast?, ∀ b ∈ g2.head?, a * (1 + 1 / 10) ≤ b) gs) :=
  ⟨by decide, group_signals_spec.1 [900, 950, 1000, 4000, 4050] (1 / 10) (by decide)⟩

theorem foldl_lastMatch (len : ℚ) :
    ∀ (cs : List SignalClass) (acc : Option SignalClass),
      cs.foldl (fun a c => if c.containsLen len then some c else a) acc =
        (match (cs.filter (fun c => c.containsLen len)).getLast? with
          | some c => some c
          | none => acc) := by
  intro cs
  induction cs with
  | nil => intro acc; simp
  | cons c cs ih =>
    intro acc
    by_cases h : c.containsLen len
    · rw [List.foldl_cons, if_pos h, ih (some c), List.filter_cons, if_pos h]
      cases hf : cs.filter (fun c => c.containsLen len) with
      | nil => simp
      | cons d t =>
        rw [List.getLast?_cons_cons]
        rw [List.getLast?_eq_getLast (d :: t) (by simp)]
    · rw [List.foldl_cons, if_neg h, ih acc, List.filter_cons, if_neg h]

theorem findLastContaining_eq_filterLast :
    ∀ (cs : List SignalClass) (len : ℚ),
      findLastContaining cs len = (cs.filter (fun c => c.containsLen len)).getLast? := by
  intro cs len
  rw [findLastContaining, foldl_lastMatch]
  cases (cs.filter (fun c => c.containsLen len)).getLast? <;> rfl

/-- C3: when several classes contain a raw value, the class assigned is
the LAST matching class in scan order of the given list — the scan equals
`getLast?` of the matching sublist — and concretely `normalize_command`
assigns length 105 the later, wider class `[100,120]` rather than the
earlier, narrower `[104,106]`. -/
theorem normalize_last_match_wins :
    (∀ (cs : List SignalClass) (len : ℚ),
      findLastContaining cs len = (cs.filter (fun c => c.containsLen len)).getLast?) ∧
    normalize_command [⟨Kind.pulse, 105⟩]
        [(mkClass Kind.pulse 0 [104, 106]).1, (mkClass Kind.pulse 2 [100, 120]).1] [] =
      Except.ok ([⟨Kind.pulse, 110⟩], [(mkClass Kind.pulse 2 [100, 120]).1]) := by
  constructor
  · exact findLastContaining_eq_filterLast
  · norm_num [normalize_command, normLoop, lastPulseResolve, normalizeClasses, findLastContaining,
      SignalClass.containsLen, mkClass, listMin, listMax, listMean, listMode,
      SignalClass.normalizedVal, pyInt, evens, odds]

/-- C4 (code bug witness): with classes built from `[100]` (pulses) and
`[200]` (gaps), no pulse class contains the final pulse length 5000, yet
`normalize_command` on `[Pulse 100, Gap 200, Pulse 5000]` raises nothing:
the `pulse_type` local is never reset before the `# Last pulse` scan, so
the stale class of the previous pulse is silently assigned and the final
pulse is normalized to 100. -/
theorem normalize_final_pulse_stale :
    (([(mkClass Kind.pulse 0 [100]).1].all (fun c => !(c.containsLen 5000))) = true) ∧
    normalize_command [⟨Kind.pulse, 100⟩, ⟨Kind.gap, 200⟩, ⟨Kind.pulse, 5000⟩]
        [(mkClass Kind.pulse 0 [100]).1] [(mkClass Kind.gap 0 [200]).1] =
      Except.ok ([⟨Kind.pulse, 100⟩, ⟨Kind.gap, 200⟩, ⟨Kind.pulse, 100⟩],
        [(mkClass Kind.pulse 0 [100]).1, (mkClass Kind.gap 0 [200]).1,
         (mkClass Kind.pulse 0 [100]).1]) := by
  constructor
  · norm_num [mkClass, SignalClass.containsLen, listMin, listMax]
  · norm_num [normalize_command, normLoop, lastPulseResolve, normalizeClasses, findLastContaining,
      SignalClass.containsLen, mkClass, listMin, listMax, listMean, listMode,
      SignalClass.normalizedVal, pyInt, evens, odds]

/-- C5 (counterexample): a malformed raw sequence — even total count — is
NOT rejected: `Command.normalize` on `[Pulse 100, Gap 200]` succeeds
(no error of any kind is raised before or during grouping). -/
theorem no_validation_counterexample :
    (Command.normalize ⟨"x", "", [⟨Kind.pulse, 100⟩, ⟨Kind.gap, 200⟩], none⟩
      (1 / 10) ⟨0, 0⟩).isOk = true := by
  norm_num [Command.normalize, Command.normalize_with, parse_command, group_signals, sortAsc,
    List.insertionSort, List.orderedInsert, mkClasses, defaultTol,
    normalize_command, normLoop, lastPulseResolve, normalizeClasses, findLastContaining,
    SignalClass.containsLen, mkClass, listMin, listMax, listMean, listMode,
    SignalClass.normalizedVal, pyInt, evens, odds, Except.isOk, Except.toBool]

/-- C5 (amended): the code performs no validation at all — there is no
ValidationError; malformed sequences proceed into grouping and
classification.  The even-count command `[Pulse 100, Gap 200]` normalizes
successfully to a THREE-element sequence (its trailing gap is classified
against pulse classes through the stale-variable path), and the
gap-starting even-count command `[Gap 200, Pulse 100]` also normalizes
successfully. -/
theorem no_validation_amended :
    Command.normalize ⟨"x", "", [⟨Kind.pulse, 100⟩, ⟨Kind.gap, 200⟩], none⟩ (1 / 10) ⟨0, 0⟩ =
      Except.ok (⟨"x", "", [⟨Kind.pulse, 100⟩, ⟨Kind.gap, 200⟩, ⟨Kind.pulse, 100⟩],
        some [(mkClass Kind.pulse 0 [100]).1, (mkClass Kind.gap 0 [200]).1,
          (mkClass Kind.pulse 0 [100]).1]⟩, ⟨2, 2⟩) ∧
    (Command.normalize ⟨"y", "", [⟨Kind.gap, 200⟩, ⟨Kind.pulse, 100⟩], none⟩
      (1 / 10) ⟨0, 0⟩).isOk = true := by
  constructor <;>
  norm_num [Command.normalize, Command.normalize_with, parse_command, group_signals, sortAsc,
    List.insertionSort, List.orderedInsert, mkClasses, defaultTol,
    normalize_command, normLoop, lastPulseResolve, normalizeClasses, findLastContaining,
    SignalClass.containsLen, mkClass, listMin, listMax, listMean, listMode,
    SignalClass.normalizedVal, pyInt, evens, odds, Except.isOk, Except.toBool]

/-- C6 (code bug witness): `parse_command` called with tolerance 0 on
pulses `[100, 109]` still produces a single merged class, because the
body calls `group_signals` without forwarding the tolerance (the default
0.1 is always used); grouping with the given tolerance 0 would have
produced two groups. -/
theorem parse_command_tolerance_ignored :
    (parse_command [⟨Kind.pulse, 100⟩, ⟨Kind.gap, 50⟩, ⟨Kind.pulse, 109⟩] 0 ⟨0, 0⟩).map
        (fun r => r.1.1.map (fun c => c.signals)) = Except.ok [[100, 109]] ∧
    group_signals [100, 109] 0 = Except.ok [[100], [109]] := by
  constructor <;>
  norm_num [parse_command, group_signals, sortAsc, List.insertionSort, List.orderedInsert,
    mkClasses, mkClass, defaultTol, listMin, listMax, listMean, listMode, evens, odds, groupGo,
    Except.map]

/-- C8 (code bug witness): a never-normalized command serializes with
`signal_class_list = null`, and decoding that very record fails with a
TypeError (`from_json` iterates the field unconditionally), so the
encode→decode round trip does not reproduce a raw command. -/
theorem from_json_null_class_list_bug :
    Command.to_json ⟨"power", "tv", [⟨Kind.pulse, 100⟩], none⟩ =
      ⟨"Command", "power", [⟨"Pulse", 100⟩], "tv", none⟩ ∧
    Command.from_json (Command.to_json ⟨"power", "tv", [⟨Kind.pulse, 100⟩], none⟩) =
      Except.error PyErr.typeError := by
  constructor <;> rfl

/-- C9 (counterexample): two sequential `parse_command` calls on the very
same input `[Pulse 100, Gap 200]` both succeed but draw class ids from
the SAME per-kind counters (Python class-level state): the first call
leaves the pulse counter at 2, and the second call's pulse class id is 3
where the first call's was 1. -/
theorem parse_command_ids_shared_state :
    (parse_command [⟨Kind.pulse, 100⟩, ⟨Kind.gap, 200⟩] 0 ⟨0, 0⟩).map
        (fun r => (r.1.1.map (fun c => c.id), r.2)) =
      Except.ok ([1], ⟨2, 2⟩) ∧
    (parse_command [⟨Kind.pulse, 100⟩, ⟨Kind.gap, 200⟩] 0 ⟨2, 2⟩).map
        (fun r => r.1.1.map (fun c => c.id)) =
      Except.ok [3] ∧
    ([1] : List ℕ) ≠ [3] := by
  refine ⟨?_, ?_, by decide⟩ <;>
  norm_num [parse_command, group_signals, sortAsc, List.insertionSort, List.orderedInsert,
    mkClasses, mkClass, defaultTol, evens, odds, groupGo, Except.map]

theorem foldl_min_le_init : ∀ (ys : List ℚ) (a : ℚ), ys.foldl min a ≤ a := by
  intro ys
  induction ys with
  | nil => intro a; simp
  | cons y ys ih => intro a; exact le_trans (ih (min a y)) (min_le_left a y)

theorem foldl_min_le_mem : ∀ (ys : List ℚ) (a x : ℚ), x ∈ ys → ys.foldl min a ≤ x := by
  intro ys
  induction ys with
  | nil => intro a x hx; cases hx
  | cons y ys ih =>
    intro a x hx
    rcases List.mem_cons.mp hx with rfl | hx2
    · exact le_trans (foldl_min_le_init ys (min a x)) (min_le_right a x)
    · exact ih (min a y) x hx2

theorem le_foldl_max_init : ∀ (ys : List ℚ) (a : ℚ), a ≤ ys.foldl max a := by
  intro ys
  induction ys with
  | nil => intro a; simp
  | cons y ys ih => intro a; exact le_trans (le_max_left a y) (ih (max a y))

theorem le_foldl_max_mem : ∀ (ys : List ℚ) (a x : ℚ), x ∈ ys → x ≤ ys.foldl max a := by
  intro ys
  induction ys with
  | nil => intro a x hx; cases hx
  | cons y ys ih =>
    intro a x hx
    rcases List.mem_cons.mp hx with rfl | hx2
    · exact le_trans (le_max_right a x) (le_foldl_max_init ys (max a x))
    · exact ih (max a y) x hx2

theorem listMin_le {g : List ℚ} {x : ℚ} (hx : x ∈ g) : listMin g ≤ x := by
  cases g with
  | nil => cases hx
  | cons y ys =>
    show ys.foldl min y ≤ x
    rcases List.mem_cons.mp hx with rfl | hx2
    · exact foldl_min_le_init ys x
    · exact foldl_min_le_mem ys y x hx2

theorem le_listMax {g : List ℚ} {x : ℚ} (hx : x ∈ g) : x ≤ listMax g := by
  cases g with
  | nil => cases hx
  | cons y ys =>
    show x ≤ ys.foldl max y
    rcases List.mem_cons.mp hx with rfl | hx2
    · exact le_foldl_max_init ys x
    · exact le_foldl_max_mem ys y x hx2

theorem mkClass_contains (k : Kind) (c : ℕ) {g : List ℚ} {x : ℚ} (hx : x ∈ g) :
    ((mkClass k c g).1.containsLen x) = true := by
  simp only [mkClass, SignalClass.containsLen, Bool.and_eq_true, decide_eq_true_eq]
  exact ⟨listMin_le hx, le_listMax hx⟩

theorem mkClasses_mem (k : Kind) {g : List ℚ} :
    ∀ (gs : List (List ℚ)) (c : ℕ), g ∈ gs →
      ∃ c2, (mkClass k c2 g).1 ∈ (mkClasses k c gs).1 := by
  intro gs
  induction gs with
  | nil => intro c h; cases h
  | cons g0 gs ih =>
    intro c h
    rcases List.mem_cons.mp h with rfl | h2
    · exact ⟨c, by simp [mkClasses]⟩
    · obtain ⟨c2, hc2⟩ := ih (mkClass k c g0).2 h2
      exact ⟨c2, by simp [mkClasses, hc2]⟩

theorem findLast_isSome_of_mem {cs : List SignalClass} {len : ℚ} {cl : SignalClass}
    (hmem : cl ∈ cs) (hcont : cl.containsLen len = true) :
    (findLastContaining cs len).isSome = true := by
  rw [findLastContaining_eq_filterLast]
  have hf : cl ∈ cs.filter (fun c => c.containsLen len) :=
    List.mem_filter.mpr ⟨hmem, hcont⟩
  rw [List.getLast?_isSome]
  exact List.ne_nil_of_mem hf

theorem classes_cover (k : Kind) (c : ℕ) {xs : List ℚ} {tol : ℚ} {gs : List (List ℚ)}
    (hgs : group_signals xs tol = Except.ok gs) {x : ℚ} (hx : x ∈ xs) :
    (findLastContaining (mkClasses k c gs).1 x).isSome = true := by
  have hsort : x ∈ sortAsc xs := (sortAsc_perm xs).mem_iff.mpr hx
  have hxj : x ∈ gs.join := by rw [group_signals_ok_join hgs]; exact hsort
  obtain ⟨g, hgmem, hxg⟩ := List.mem_join.mp hxj
  obtain ⟨c2, hc2⟩ := mkClasses_mem k gs c hgmem
  exact findLast_isSome_of_mem hc2 (mkClass_contains k c2 hxg)

theorem evens_cons {α : Type} (b : α) (l : List α) : evens (b :: l) = b :: odds l := by
  cases l <;> rfl

theorem dropLast_evens_odds {α : Type} :
    ∀ l : List α,
      (∀ x ∈ evens l.dropLast, x ∈ evens l) ∧ (∀ x ∈ odds l.dropLast, x ∈ odds l) := by
  intro l
  induction l with
  | nil => exact ⟨fun x hx => hx, fun x hx => hx⟩
  | cons a t ih =>
    cases t with
    | nil =>
      constructor
      · intro x hx; cases hx
      · intro x hx; cases hx
    | cons b t2 =>
      constructor
      · intro x hx
        rw [List.dropLast_cons₂, evens_cons] at hx
        rw [evens_cons]
        rcases List.mem_cons.mp hx with rfl | hx2
        · exact List.mem_cons_self x (odds (b :: t2))
        · exact List.mem_cons_of_mem a (ih.2 x hx2)
      · intro x hx
        rw [List.dropLast_cons₂] at hx
        exact ih.1 x hx

theorem getLast_evens_odds {α : Type} :
    ∀ l : List α,
      (∀ s, l.getLast? = some s → l.length % 2 = 1 → s ∈ evens l) ∧
      (∀ s, l.getLast? = some s → l.length % 2 = 0 → s ∈ odds l) := by
  intro l
  induction l with
  | nil =>
    constructor
    · intro s hs; cases hs
    · intro s hs; cases hs
  | cons a t ih =>
    cases t with
    | nil =>
      constructor
      · intro s hs _
        have : s = a := by
          simp only [List.getLast?_singleton, Option.some.injEq] at hs
          exact hs.symm
        subst this
        exact List.mem_singleton_self s
      · intro s hs hlen
        simp at hlen
    | cons b t2 =>
      constructor
      · intro s hs hlen
        rw [List.getLast?_cons_cons] at hs
        have h2 : (b :: t2).length % 2 = 0 := by
          simp only [List.length_cons] at hlen ⊢
          omega
        rw [evens_cons]
        exact List.mem_cons_of_mem a (ih.2 s hs h2)
      · intro s hs hlen
        rw [List.getLast?_cons_cons] at hs
        have h2 : (b :: t2).length % 2 = 1 := by
          simp only [List.length_cons] at hlen ⊢
          omega
        exact ih.1 s hs h2

theorem normLoop_ok (pcs gcs : List SignalClass) :
    ∀ (pairs : List (Signal × Signal)) (acc : List SignalClass) (pt : Option SignalClass),
      (∀ pg ∈ pairs, (findLastContaining pcs (Prod.fst pg).length).isSome = true ∧
        (findLastContaining gcs (Prod.snd pg).length).isSome = true) →
      ∃ r, normLoop pcs gcs acc pt pairs = Except.ok r := by
  intro pairs
  induction pairs with
  | nil => intro acc pt _; exact ⟨(acc, pt), rfl⟩
  | cons pg rest ih =>
    intro acc pt h
    obtain ⟨hp, hg⟩ := h pg (List.mem_cons_self pg rest)
    obtain ⟨pc, hpc⟩ := Option.isSome_iff_exists.mp hp
    obtain ⟨gc, hgc⟩ := Option.isSome_iff_exists.mp hg
    obtain ⟨p, g⟩ := pg
    obtain ⟨r, hr⟩ := ih (acc ++ [pc, gc]) (some pc)
      (fun q hq => h q (List.mem_cons_of_mem _ hq))
    exact ⟨r, by simp only [normLoop, hpc, hgc]; exact hr⟩

theorem normalizeClasses_eq :
    ∀ cls : List SignalClass,
      normalizeClasses cls =
        Except.ok (cls.map (fun cl => (⟨cl.kind, ((pyInt cl.mean : ℤ) : ℚ)⟩ : Signal))) := by
  intro cls
  induction cls with
  | nil => rfl
  | cons cl rest ih =>
    have h : cl.normalizedVal ("int_mean") = Except.ok ((pyInt cl.mean : ℤ) : ℚ) := rfl
    simp only [normalizeClasses, h, ih, List.map_cons]

theorem evens_ne_nil {α : Type} {l : List α} (hl : l ≠ []) : evens l ≠ [] := by
  cases l with
  | nil => exact absurd rfl hl
  | cons a t =>
    rw [evens_cons]
    exact List.cons_ne_nil a (odds t)

theorem odds_ne_nil {α : Type} {l : List α} (h2 : 2 ≤ l.length) : odds l ≠ [] := by
  cases l with
  | nil => simp at h2
  | cons a t =>
    cases t with
    | nil => simp at h2
    | cons b t2 =>
      show evens (b :: t2) ≠ []
      rw [evens_cons]
      exact List.cons_ne_nil b (odds t2)

/-- C2 (counterexample): the single-pulse sequence is well-formed
(odd count, starts and ends on a pulse), yet `parse_command` on it fails
with IndexError — `group_signals` is called on the empty odd-index (gap)
sublist and indexes `sorted_signals[0]` — so the parse-then-normalize
pipeline does not succeed on every well-formed sequence. -/
theorem parse_singleton_index_error :
    alternatingWF [⟨Kind.pulse, 100⟩] ∧
    parse_command [⟨Kind.pulse, 100⟩] 0 ⟨0, 0⟩ = Except.error PyErr.indexError := by
  constructor
  · simp only [alternatingWF]
    decide
  · rfl

/-- C2 (amended): for every well-formed alternating raw sequence that
contains at least one gap (length ≥ 3) and every tolerance, building
classes with `parse_command` and then running `normalize_command` on the
same sequence with those classes succeeds: every even-indexed (pulse)
length is contained in some returned pulse class, every odd-indexed
(gap) length in some returned gap class, and no classification error is
raised.  (The well-formed single-pulse sequence is the exception: there
`parse_command` fails with IndexError grouping the empty gap sublist.) -/
theorem parse_then_normalize_ok :
    ∀ (l : List Signal) (tol : ℚ) (st : UidState), alternatingWF l → 3 ≤ l.length →
      ∃ pcs gcs st2,
        parse_command l tol st = Except.ok ((pcs, gcs), st2) ∧
        (∀ s ∈ evens l, (findLastContaining pcs s.length).isSome = true) ∧
        (∀ s ∈ odds l, (findLastContaining gcs s.length).isSome = true) ∧
        (normalize_command l pcs gcs).isOk = true := by
  intro l tol st hwf hlen
  obtain ⟨hne, hodd, _⟩ := hwf
  have hep : (evens l).map Signal.length ≠ [] := by
    intro h0
    exact evens_ne_nil hne (List.map_eq_nil.mp h0)
  have heg : (odds l).map Signal.length ≠ [] := by
    intro h0
    exact odds_ne_nil (by omega) (List.map_eq_nil.mp h0)
  obtain ⟨gp, hgp, _⟩ := group_signals_ok_of_ne_nil defaultTol hep
  obtain ⟨gg, hgg, _⟩ := group_signals_ok_of_ne_nil defaultTol heg
  have hcoverP : ∀ s ∈ evens l,
      (findLastContaining (mkClasses Kind.pulse st.pulse gp).1 s.length).isSome = true :=
    fun s hs => classes_cover Kind.pulse st.pulse hgp (List.mem_map_of_mem Signal.length hs)
  have hcoverG : ∀ s ∈ odds l,
      (findLastContaining (mkClasses Kind.gap st.gap gg).1 s.length).isSome = true :=
    fun s hs => classes_cover Kind.gap st.gap hgg (List.mem_map_of_mem Signal.length hs)
  refine ⟨(mkClasses Kind.pulse st.pulse gp).1, (mkClasses Kind.gap st.gap gg).1,
    ⟨(mkClasses Kind.pulse st.pulse gp).2, (mkClasses Kind.gap st.gap gg).2⟩,
    ?_, hcoverP, hcoverG, ?_⟩
  · unfold parse_command
    rw [hgp, hgg]
  · obtain ⟨lastSig, hlast⟩ := Option.isSome_iff_exists.mp (List.getLast?_isSome.mpr hne)
    have hpairs : ∀ pg ∈ (evens l.dropLast).zip (odds l),
        (findLastContaining (mkClasses Kind.pulse st.pulse gp).1
          (Prod.fst pg).length).isSome = true ∧
        (findLastContaining (mkClasses Kind.gap st.gap gg).1
          (Prod.snd pg).length).isSome = true := by
      intro pg hpg
      obtain ⟨h1, h2⟩ := List.of_mem_zip hpg
      exact ⟨hcoverP pg.1 ((dropLast_evens_odds l).1 pg.1 h1), hcoverG pg.2 h2⟩
    obtain ⟨⟨acc, pt0⟩, hloop⟩ := normLoop_ok (mkClasses Kind.pulse st.pulse gp).1
        (mkClasses Kind.gap st.gap gg).1 ((evens l.dropLast).zip (odds l)) [] none hpairs
    have hlastmem : lastSig ∈ evens l := (getLast_evens_odds l).1 lastSig hlast hodd
    obtain ⟨c, hc⟩ := Option.isSome_iff_exists.mp (hcoverP lastSig hlastmem)
    simp only [normalize_command, hlast, hloop, lastPulseResolve, hc, normalizeClasses_eq,
      Except.isOk, Except.toBool]

/-- Witness for the amended C2 at a concrete well-formed sequence with a
gap. -/
theorem parse_then_normalize_ok_witness :
    alternatingWF [⟨Kind.pulse, 100⟩, ⟨Kind.gap, 200⟩, ⟨Kind.pulse, 100⟩] ∧
    3 ≤ ([⟨Kind.pulse, 100⟩, ⟨Kind.gap, 200⟩, ⟨Kind.pulse, 100⟩] : List Signal).length ∧
    ∃ pcs gcs st2,
      parse_command [⟨Kind.pulse, 100⟩, ⟨Kind.gap, 200⟩, ⟨Kind.pulse, 100⟩] 0 ⟨0, 0⟩ =
        Except.ok ((pcs, gcs), st2) ∧
      (∀ s ∈ evens [(⟨Kind.pulse, 100⟩ : Signal), ⟨Kind.gap, 200⟩, ⟨Kind.pulse, 100⟩],
        (findLastContaining pcs s.length).isSome = true) ∧
      (∀ s ∈ odds [(⟨Kind.pulse, 100⟩ : Signal), ⟨Kind.gap, 200⟩, ⟨Kind.pulse, 100⟩],
        (findLastContaining gcs s.length).isSome = true) ∧
      (normalize_command [⟨Kind.pulse, 100⟩, ⟨Kind.gap, 200⟩, ⟨Kind.pulse, 100⟩]
        pcs gcs).isOk = true :=
  ⟨by simp only [alternatingWF]; decide, by decide,
    parse_then_normalize_ok [⟨Kind.pulse, 100⟩, ⟨Kind.gap, 200⟩, ⟨Kind.pulse, 100⟩] 0 ⟨0, 0⟩
      (by simp only [alternatingWF]; decide) (by decide)⟩

theorem normalize_command_ok_shape {l : List Signal} {pcs gcs : List SignalClass}
    {ns : List Signal} {scl : List SignalClass}
    (h : normalize_command l pcs gcs = Except.ok (ns, scl)) :
    ns = scl.map (fun cl => (⟨cl.kind, ((pyInt cl.mean : ℤ) : ℚ)⟩ : Signal)) := by
  unfold normalize_command at h
  cases hl : l.getLast? with
  | none => rw [hl] at h; exact Except.noConfusion h
  | some lastSig =>
    rw [hl] at h
    cases hloop : normLoop pcs gcs [] none ((evens l.dropLast).zip (odds l)) with
    | error e => rw [hloop] at h; exact Except.noConfusion h
    | ok r =>
      rw [hloop] at h
      obtain ⟨acc, pt0⟩ := r
      dsimp only at h
      simp only [normalizeClasses_eq] at h
      cases hres : lastPulseResolve pcs pt0 lastSig with
      | error e => rw [hres] at h; exact Except.noConfusion h
      | ok c =>
        rw [hres] at h
        injection h with h2
        simp only [Prod.mk.injEq] at h2
        rw [← h2.1, ← h2.2]

theorem mkClasses_classData (k : Kind) :
    ∀ (gs : List (List ℚ)) (c c2 : ℕ),
      (mkClasses k c gs).1.map classData = (mkClasses k c2 gs).1.map classData := by
  intro gs
  induction gs with
  | nil => intro c c2; rfl
  | cons g gs ih =>
    intro c c2
    simp only [mkClasses, List.map_cons]
    rw [ih (mkClass k c g).2 (mkClass k c2 g).2]
    rfl

theorem mkClasses_ids (k : Kind) :
    ∀ (gs : List (List ℚ)) (c : ℕ),
      (mkClasses k c gs).1.map (fun cl => cl.id) =
        (List.range gs.length).map (fun i => c + 2 * i + 1) := by
  intro gs
  induction gs with
  | nil => intro c; rfl
  | cons g gs ih =>
    intro c
    simp only [mkClasses, List.map_cons, List.length_cons]
    rw [ih (mkClass k c g).2, List.range_succ_eq_map, List.map_cons, List.map_map]
    have hf : ((fun i => c + 2 * i + 1) ∘ Nat.succ) = (fun i => c + 2 + 2 * i + 1) := by
      funext i
      simp only [Function.comp]
      omega
    rw [hf]
    rfl

theorem mkClasses_length (k : Kind) :
    ∀ (gs : List (List ℚ)) (c : ℕ), (mkClasses k c gs).1.length = gs.length := by
  intro gs
  induction gs with
  | nil => intro c; rfl
  | cons g gs ih =>
    intro c
    simp only [mkClasses, List.length_cons, ih (mkClass k c g).2]

/-- C9 (amended): `parse_command` is a pure function of the input
sequence, tolerance and the per-kind uid counter state, with no effect
beyond advancing those counters.  Whenever two calls on the same input
succeed, they yield classes with identical observable statistics (kind,
member lengths, mean, mode, min, max, range) regardless of the incoming
counters, but the `id` fields are counter-derived: within one call they
are `st + 1, st + 3, …` per kind, continuing from whatever the shared
counters held — so sequential calls do NOT produce identical ids. -/
theorem parse_command_deterministic_amended :
    ∀ (sig : List Signal) (tol : ℚ) (st st2 : UidState)
      (r r2 : (List SignalClass × List SignalClass) × UidState),
      parse_command sig tol st = Except.ok r →
      parse_command sig tol st2 = Except.ok r2 →
      r.1.1.map classData = r2.1.1.map classData ∧
      r.1.2.map classData = r2.1.2.map classData ∧
      r.1.1.map (fun cl => cl.id) =
        (List.range r.1.1.length).map (fun i => st.pulse + 2 * i + 1) ∧
      r.1.2.map (fun cl => cl.id) =
        (List.range r.1.2.length).map (fun i => st.gap + 2 * i + 1) := by
  intro sig tol st st2 r r2 h h2
  unfold parse_command at h h2
  cases hgp : group_signals ((evens sig).map Signal.length) defaultTol with
  | error e => rw [hgp] at h; exact Except.noConfusion h
  | ok gp =>
    rw [hgp] at h h2
    cases hgg : group_signals ((odds sig).map Signal.length) defaultTol with
    | error e => rw [hgg] at h; exact Except.noConfusion h
    | ok gg =>
      rw [hgg] at h h2
      dsimp only at h h2
      injection h with h3
      injection h2 with h4
      rw [← h3, ← h4]
      refine ⟨mkClasses_classData Kind.pulse gp st.pulse st2.pulse,
        mkClasses_classData Kind.gap gg st.gap st2.gap, ?_, ?_⟩
      · rw [mkClasses_length Kind.pulse gp st.pulse]
        exact mkClasses_ids Kind.pulse gp st.pulse
      · rw [mkClasses_length Kind.gap gg st.gap]
        exact mkClasses_ids Kind.gap gg st.gap

/-- Witness for the amended C9 at a concrete input where both calls use
the same counter state. -/
theorem parse_command_deterministic_amended_witness :
    parse_command [⟨Kind.pulse, 100⟩, ⟨Kind.gap, 200⟩] 0 ⟨0, 0⟩ =
      Except.ok (([(mkClass Kind.pulse 0 [100]).1], [(mkClass Kind.gap 0 [200]).1]), ⟨2, 2⟩) ∧
    ([(mkClass Kind.pulse 0 [100]).1] : List SignalClass).map (fun cl => cl.id) =
      (List.range ([(mkClass Kind.pulse 0 [100]).1] : List SignalClass).length).map
        (fun i => (⟨0, 0⟩ : UidState).pulse + 2 * i + 1) := by
  have h : parse_command [⟨Kind.pulse, 100⟩, ⟨Kind.gap, 200⟩] 0 ⟨0, 0⟩ =
      Except.ok (([(mkClass Kind.pulse 0 [100]).1], [(mkClass Kind.gap 0 [200]).1]), ⟨2, 2⟩) := by
    norm_num [parse_command, group_signals, sortAsc, List.insertionSort, List.orderedInsert,
      mkClasses, mkClass, defaultTol, listMin, listMax, listMean, listMode, evens, odds, groupGo]
  exact ⟨h, (parse_command_deterministic_amended _ 0 ⟨0, 0⟩ ⟨0, 0⟩ _ _ h h).2.2.1⟩

/-- C7: the default policy value is the integer floor of the class mean
(for the non-negative means that arise from raw captures); mean, mode,
min and max policies are selectable; any other policy name is rejected
with the ValueError message; a constructed class's mean is the arithmetic
mean of its grouped member lengths; and every value in a successful
`normalize_command` output equals the floor of its assigned class's
mean. -/
theorem normalized_policies :
    (∀ cl : SignalClass, 0 ≤ cl.mean →
        cl.normalizedVal ("int_mean") = Except.ok ((⌊cl.mean⌋ : ℤ) : ℚ)) ∧
    (∀ cl : SignalClass, cl.normalizedVal ("mean") = Except.ok cl.mean) ∧
    (∀ cl : SignalClass, cl.normalizedVal ("mode") = Except.ok cl.mode) ∧
    (∀ cl : SignalClass, cl.normalizedVal ("min") = Except.ok cl.min) ∧
    (∀ cl : SignalClass, cl.normalizedVal ("max") = Except.ok cl.max) ∧
    (∀ (cl : SignalClass) (s : String),
        s ∉ (["mean", "int_mean", "mode", "min", "max"] : List String) →
        cl.normalizedVal s = Except.error ("Unrecognized normalized_value")) ∧
    (∀ (k : Kind) (c : ℕ) (g : List ℚ),
        ((mkClass k c g).1).mean = g.sum / (g.length : ℚ)) ∧
    (∀ (l : List Signal) (pcs gcs : List SignalClass) (ns : List Signal)
        (scl : List SignalClass),
        normalize_command l pcs gcs = Except.ok (ns, scl) →
        (∀ cl ∈ scl, 0 ≤ cl.mean) →
        ns = scl.map (fun cl => (⟨cl.kind, ((⌊cl.mean⌋ : ℤ) : ℚ)⟩ : Signal))) := by
  refine ⟨?_, fun cl => rfl, fun cl => rfl, fun cl => rfl, fun cl => rfl, ?_, fun k c g => rfl, ?_⟩
  · intro cl hm
    have h : cl.normalizedVal ("int_mean") = Except.ok ((pyInt cl.mean : ℤ) : ℚ) := rfl
    rw [h, pyInt, if_pos hm]
  · intro cl s hs
    simp only [List.mem_cons, List.not_mem_nil, or_false, not_or] at hs
    obtain ⟨h1, h2, h3, h4, h5⟩ := hs
    simp only [SignalClass.normalizedVal, if_neg h1, if_neg h2, if_neg h3, if_neg h4, if_neg h5]
  · intro l pcs gcs ns scl h hpos
    rw [normalize_command_ok_shape h]
    refine List.map_congr_left ?_
    intro cl hcl
    have : pyInt cl.mean = ⌊cl.mean⌋ := by rw [pyInt, if_pos (hpos cl hcl)]
    rw [this]
/-- Witness for C7 at a concrete class and a concrete normalize run. -/
theorem normalized_policies_witness :
    ((0 : ℚ) ≤ ((mkClass Kind.pulse 0 [100]).1).mean ∧
      (mkClass Kind.pulse 0 [100]).1.normalizedVal ("int_mean") =
        Except.ok ((⌊((mkClass Kind.pulse 0 [100]).1).mean⌋ : ℤ) : ℚ)) ∧
    ("median" ∉ (["mean", "int_mean", "mode", "min", "max"] : List String) ∧
      (mkClass Kind.pulse 0 [100]).1.normalizedVal ("median") =
        Except.error ("Unrecognized normalized_value")) ∧
    (normalize_command [⟨Kind.pulse, 100⟩] [(mkClass Kind.pulse 0 [100]).1] [] =
        Except.ok ([⟨Kind.pulse, 100⟩], [(mkClass Kind.pulse 0 [100]).1]) ∧
      ([⟨Kind.pulse, 100⟩] : List Signal) =
        [(mkClass Kind.pulse 0 [100]).1].map
          (fun cl => (⟨cl.kind, ((⌊cl.mean⌋ : ℤ) : ℚ)⟩ : Signal))) := by
  have hm : (0 : ℚ) ≤ ((mkClass Kind.pulse 0 [100]).1).mean := by
    norm_num [mkClass, listMean]
  have hs : "median" ∉ (["mean", "int_mean", "mode", "min", "max"] : List String) := by
    decide
  have hok : normalize_command [⟨Kind.pulse, 100⟩] [(mkClass Kind.pulse 0 [100]).1] [] =
      Except.ok ([⟨Kind.pulse, 100⟩], [(mkClass Kind.pulse 0 [100]).1]) := by
    norm_num [normalize_command, normLoop, lastPulseResolve, normalizeClasses, findLastContaining,
      SignalClass.containsLen, mkClass, listMin, listMax, listMean, listMode,
      SignalClass.normalizedVal, pyInt, evens, odds]
  have hpos : ∀ cl ∈ [(mkClass Kind.pulse 0 [100]).1], (0 : ℚ) ≤ cl.mean := by
    intro cl hcl
    simp only [List.mem_singleton] at hcl
    subst hcl
    exact hm
  exact ⟨⟨hm, normalized_policies.1 _ hm⟩,
    ⟨hs, normalized_policies.2.2.2.2.2.1 _ "median" hs⟩,
    ⟨hok, normalized_policies.2.2.2.2.2.2.2 _ _ _ _ _ hok hpos⟩⟩

theorem normalize_with_shape {c : Command} {pcs gcs : List SignalClass} {c2 : Command}
    (h : Command.normalize_with c pcs gcs = Except.ok c2) :
    c2.name = c.name ∧ c2.description = c.description ∧
    ∃ scl, normalize_command c.signal_list pcs gcs =
        Except.ok (scl.map (fun cl => (⟨cl.kind, ((pyInt cl.mean : ℤ) : ℚ)⟩ : Signal)), scl) ∧
      c2.signal_list =
        scl.map (fun cl => (⟨cl.kind, ((pyInt cl.mean : ℤ) : ℚ)⟩ : Signal)) ∧
      c2.signal_class_list = some scl := by
  unfold Command.normalize_with at h
  cases hn : normalize_command c.signal_list pcs gcs with
  | error e => rw [hn] at h; exact Except.noConfusion h
  | ok r =>
    rw [hn] at h
    obtain ⟨ns, scl⟩ := r
    dsimp only at h
    injection h with h2
    have hshape := normalize_command_ok_shape hn
    subst h2
    subst hshape
    exact ⟨rfl, rfl, scl, rfl, rfl, rfl⟩

/-- C10: when `normalize_with` (or `normalize`) succeeds, the raw
`signal_list` is replaced in place by the class representative values,
`signal_class_list` becomes the parallel assignment list, and the name
and description are untouched. -/
theorem normalize_replaces_state :
    (∀ (c : Command) (pcs gcs : List SignalClass) (c2 : Command),
      Command.normalize_with c pcs gcs = Except.ok c2 →
      c2.name = c.name ∧ c2.description = c.description ∧
      ∃ scl, normalize_command c.signal_list pcs gcs =
          Except.ok (scl.map (fun cl => (⟨cl.kind, ((pyInt cl.mean : ℤ) : ℚ)⟩ : Signal)), scl) ∧
        c2.signal_list =
          scl.map (fun cl => (⟨cl.kind, ((pyInt cl.mean : ℤ) : ℚ)⟩ : Signal)) ∧
        c2.signal_class_list = some scl) ∧
    (∀ (c : Command) (tol : ℚ) (st : UidState) (c2 : Command) (st2 : UidState),
      Command.normalize c tol st = Except.ok (c2, st2) →
      c2.name = c.name ∧ c2.description = c.description ∧
      ∃ r, parse_command c.signal_list tol st = Except.ok r ∧ st2 = r.2 ∧
        ∃ scl, c2.signal_list =
            scl.map (fun cl => (⟨cl.kind, ((pyInt cl.mean : ℤ) : ℚ)⟩ : Signal)) ∧
          c2.signal_class_list = some scl) := by
  constructor
  · intro c pcs gcs c2 h
    exact normalize_with_shape h
  · intro c tol st c2 st2 h
    unfold Command.normalize at h
    cases hp : parse_command c.signal_list tol st with
    | error e => rw [hp] at h; exact Except.noConfusion h
    | ok r =>
      rw [hp] at h
      dsimp only at h
      cases hw : Command.normalize_with c r.1.1 r.1.2 with
      | error e => rw [hw] at h; exact Except.noConfusion h
      | ok c3 =>
        rw [hw] at h
        dsimp only at h
        injection h with h2
        simp only [Prod.mk.injEq] at h2
        obtain ⟨hc3, hst⟩ := h2
        subst hc3
        obtain ⟨hname, hdesc, scl, _, hsig, hcls⟩ := normalize_with_shape hw
        exact ⟨hname, hdesc, r, rfl, hst.symm, scl, hsig, hcls⟩

/-- Witness for C10 at a concrete command and classes. -/
theorem normalize_replaces_state_witness :
    Command.normalize_with ⟨"a", "b", [⟨Kind.pulse, 100⟩], none⟩
        [(mkClass Kind.pulse 0 [100]).1] [] =
      Except.ok ⟨"a", "b", [⟨Kind.pulse, 100⟩], some [(mkClass Kind.pulse 0 [100]).1]⟩ ∧
    (⟨"a", "b", [⟨Kind.pulse, 100⟩],
        some [(mkClass Kind.pulse 0 [100]).1]⟩ : Command).name =
      (⟨"a", "b", [⟨Kind.pulse, 100⟩], none⟩ : Command).name := by
  have h : Command.normalize_with ⟨"a", "b", [⟨Kind.pulse, 100⟩], none⟩
      [(mkClass Kind.pulse 0 [100]).1] [] =
      Except.ok ⟨"a", "b", [⟨Kind.pulse, 100⟩], some [(mkClass Kind.pulse 0 [100]).1]⟩ := by
    norm_num [Command.normalize_with, normalize_command, normLoop, lastPulseResolve,
      normalizeClasses, findLastContaining, SignalClass.containsLen, mkClass, listMin,
      listMax, listMean, listMode, SignalClass.normalizedVal, pyInt, evens, odds]
  exact ⟨h, (normalize_replaces_state.1 _ _ _ _ h).1⟩

end Ircodec
